import Mathlib

/-!
Verification of the PPE-detection matching core
(`Lambda_PreTrained_and_CustomLabels.py`, `Lambda_PreTrained.py`,
`lambda_function.py`).

Coordinates are modelled as rationals (the Python code only compares and
adds coordinates, so any ordered field is faithful).  Python `set[str]`
values are modelled as `List String` with membership-based insertion:
what the program observes about a set is membership, emptiness and an
(unspecified) iteration order, all of which the list carries.
-/

namespace PPE

/-- `Interval` from the source: a 1-D segment with `min` and `max` fields. -/
structure Interval where
  min : ℚ
  max : ℚ
deriving DecidableEq, Repr

/-- `BoundingBox` from the source: an x-projection and a y-projection. -/
structure BoundingBox where
  x_interval : Interval
  y_interval : Interval
deriving DecidableEq, Repr

/-- Raw box data from the provider: `Width`, `Height`, `Left`, `Top`. -/
structure BoxData where
  width : ℚ
  height : ℚ
  left : ℚ
  top : ℚ
deriving DecidableEq, Repr

/-- `make_bounding_box` from the source: `right = left + width`,
`bottom = top + height`, each projection normalised to `[min, max]`. -/
def make_bounding_box (box_data : BoxData) : BoundingBox :=
  let right := box_data.left + box_data.width
  let bottom := box_data.top + box_data.height
  { x_interval := { min := min box_data.left right, max := max box_data.left right }
    y_interval := { min := min box_data.top bottom, max := max box_data.top bottom } }

/-- `if_intervals_intersect` from the source:
`if lhs.min > rhs.min: lhs, rhs = rhs, lhs` then `return rhs.min < lhs.max`. -/
def if_intervals_intersect (lhs rhs : Interval) : Bool :=
  if lhs.min > rhs.min then decide (lhs.min < rhs.max)
  else decide (rhs.min < lhs.max)

/-- `if_boxes_intersect` from the source: both projections must intersect. -/
def if_boxes_intersect (lhs_box rhs_box : BoundingBox) : Bool :=
  if_intervals_intersect lhs_box.x_interval rhs_box.x_interval &&
    if_intervals_intersect lhs_box.y_interval rhs_box.y_interval

/-- Modelled from the spec's words (for the C2 refinement): order the pair so
that the interval with the smaller `min` is the left one (first argument kept
on a tie), then test `right.min < left.max` strictly. -/
def specIntervalsIntersect (a b : Interval) : Bool :=
  if a.min ≤ b.min then decide (b.min < a.max)
  else decide (a.min < b.max)

/-- C2: `if_intervals_intersect` agrees with the spec's description (order the
pair by `min`, then strict `right.min < left.max`); `if_boxes_intersect` holds
iff both projections intersect; and boxes that merely share an edge
(A = [0,0]-[1,1], B = [1,0]-[2,1]) do not intersect. -/
theorem c2_intervals_intersect_spec :
    (∀ a b : Interval, if_intervals_intersect a b = specIntervalsIntersect a b) ∧
    (∀ A B : BoundingBox, if_boxes_intersect A B =
      (if_intervals_intersect A.x_interval B.x_interval &&
        if_intervals_intersect A.y_interval B.y_interval)) ∧
    if_boxes_intersect ⟨⟨0, 1⟩, ⟨0, 1⟩⟩ ⟨⟨1, 2⟩, ⟨0, 1⟩⟩ = false := by
  refine ⟨fun a b => ?_, fun A B => rfl, by decide⟩
  unfold if_intervals_intersect specIntervalsIntersect
  by_cases h : a.min > b.min
  · rw [if_pos h, if_neg (not_le.mpr h)]
  · rw [if_neg h, if_pos (not_lt.mp h)]

/-- C4 counterexample: `if_boxes_intersect` is not symmetric on all boxes —
with a degenerate x-interval sharing its `min` with the other box's
x-interval, the two argument orders disagree. -/
theorem c4_boxes_intersect_not_symmetric :
    if_boxes_intersect ⟨⟨0, 0⟩, ⟨0, 1⟩⟩ ⟨⟨0, 5⟩, ⟨0, 1⟩⟩ = false ∧
    if_boxes_intersect ⟨⟨0, 5⟩, ⟨0, 1⟩⟩ ⟨⟨0, 0⟩, ⟨0, 1⟩⟩ = true := by
  decide

/-- `if_intervals_intersect` is symmetric on nonempty intervals. -/
theorem if_intervals_intersect_symm_of_nonempty (a b : Interval)
    (ha : a.min < a.max) (hb : b.min < b.max) :
    if_intervals_intersect a b = if_intervals_intersect b a := by
  unfold if_intervals_intersect
  rcases lt_trichotomy a.min b.min with h | h | h
  · rw [if_neg (lt_asymm h), if_pos h]
  · rw [if_neg (by rw [h]; exact lt_irrefl _), if_neg (by rw [h]; exact lt_irrefl _)]
    have h1 : b.min < a.max := h ▸ ha
    have h2 : a.min < b.max := by rw [h]; exact hb
    simp [h1, h2]
  · rw [if_pos h, if_neg (lt_asymm h)]

/-- C4 amended: `if_boxes_intersect` is symmetric for boxes all of whose
projection intervals are nondegenerate (`min < max`). -/
theorem c4_boxes_intersect_symm_nondegenerate (A B : BoundingBox)
    (hxA : A.x_interval.min < A.x_interval.max)
    (hyA : A.y_interval.min < A.y_interval.max)
    (hxB : B.x_interval.min < B.x_interval.max)
    (hyB : B.y_interval.min < B.y_interval.max) :
    if_boxes_intersect A B = if_boxes_intersect B A := by
  unfold if_boxes_intersect
  rw [if_intervals_intersect_symm_of_nonempty _ _ hxA hxB,
    if_intervals_intersect_symm_of_nonempty _ _ hyA hyB]

/-- Witness for C4 amended at two concrete nondegenerate boxes. -/
theorem c4_boxes_intersect_symm_witness :
    ((0 : ℚ) < 1 ∧ (0 : ℚ) < 2) ∧
    if_boxes_intersect ⟨⟨0, 1⟩, ⟨0, 1⟩⟩ ⟨⟨0, 2⟩, ⟨0, 2⟩⟩ =
      if_boxes_intersect ⟨⟨0, 2⟩, ⟨0, 2⟩⟩ ⟨⟨0, 1⟩, ⟨0, 1⟩⟩ :=
  ⟨by decide, c4_boxes_intersect_symm_nondegenerate _ _
    (by decide) (by decide) (by decide) (by decide)⟩

/-- C9: a box with a degenerate x- or y-projection never intersects itself,
and a degenerate interval `[c, c]` does not intersect itself. -/
theorem c9_degenerate_box_never_self_intersects (A : BoundingBox) (c : ℚ)
    (h : A.x_interval.min = A.x_interval.max ∨ A.y_interval.min = A.y_interval.max) :
    if_boxes_intersect A A = false ∧ if_intervals_intersect ⟨c, c⟩ ⟨c, c⟩ = false := by
  constructor
  · have deg : ∀ i : Interval, i.min = i.max → if_intervals_intersect i i = false := by
      intro i hi
      unfold if_intervals_intersect
      rw [if_neg (lt_irrefl _), hi]
      simp
    unfold if_boxes_intersect
    rcases h with h | h
    · rw [deg _ h]; rfl
    · rw [deg _ h]; simp
  · unfold if_intervals_intersect
    simp

/-- `Person` from the source: equipment set, relative index (initially
`None`), bounding box.  The Python `set[str]` is modelled as a duplicate-free
list standing for the set together with its (unspecified) iteration order;
the program only observes membership, emptiness and that order. -/
structure MPerson where
  box : BoundingBox
  equipment : List String
  ind : Option Nat
deriving DecidableEq, Repr

/-- Python `set.add`: a no-op when the element is already present. -/
def setAdd (s : List String) (c : String) : List String :=
  if c ∈ s then s else s ++ [c]

/-- One intersection test of the matching pass: if the person's box intersects
the equipment `box`, add `group_name` to the person's equipment set. -/
def stepBox (group_name : String) (person : MPerson) (box : BoundingBox) : MPerson :=
  if if_boxes_intersect person.box box then
    { person with equipment := setAdd person.equipment group_name }
  else person

/-- Innermost loop of `build_stats` matching: one equipment box of category
`group_name` tested against every person. -/
def matchBox (population : List MPerson) (group_name : String)
    (box : BoundingBox) : List MPerson :=
  population.map fun person => stepBox group_name person box

/-- Middle loop of `build_stats` matching: every box of one category. -/
def matchGroup (population : List MPerson) (group_name : String)
    (group_boxes : List BoundingBox) : List MPerson :=
  group_boxes.foldl (fun pop box => matchBox pop group_name box) population

/-- The matching pass of `build_stats`: for every `(group_name, group_boxes)`
entry of the equipment map, for every box, add the group to every intersecting
person's equipment set.  (`intersected_count` only feeds a warning log line
and is not modelled.) -/
def runMatcher (equipment_boxes : List (String × List BoundingBox))
    (population : List MPerson) : List MPerson :=
  equipment_boxes.foldl (fun pop e => matchGroup pop e.1 e.2) population

/-- The effect of the matching pass on a single person, in isolation. -/
def matchPerson (equipment_boxes : List (String × List BoundingBox))
    (person : MPerson) : MPerson :=
  equipment_boxes.foldl (fun q e => e.2.foldl (stepBox e.1) q) person

theorem mem_setAdd (s : List String) (g c : String) :
    c ∈ setAdd s g ↔ c ∈ s ∨ c = g := by
  unfold setAdd
  split
  · next hg =>
      constructor
      · exact Or.inl
      · rintro (h | rfl)
        · exact h
        · exact hg
  · simp

theorem stepBox_box (g : String) (p : MPerson) (b : BoundingBox) :
    (stepBox g p b).box = p.box := by
  unfold stepBox; split <;> rfl

theorem mem_stepBox (g c : String) (p : MPerson) (b : BoundingBox) :
    c ∈ (stepBox g p b).equipment ↔
      c ∈ p.equipment ∨ (c = g ∧ if_boxes_intersect p.box b = true) := by
  unfold stepBox
  split
  · next h => simp [mem_setAdd, h]
  · next h => simp [h]

theorem foldl_stepBox_box (g : String) (bs : List BoundingBox) (p : MPerson) :
    (bs.foldl (stepBox g) p).box = p.box := by
  induction bs generalizing p with
  | nil => rfl
  | cons b bs ih => rw [List.foldl_cons, ih, stepBox_box]

theorem mem_foldl_stepBox (g c : String) (bs : List BoundingBox) (p : MPerson) :
    c ∈ (bs.foldl (stepBox g) p).equipment ↔
      c ∈ p.equipment ∨ (c = g ∧ ∃ b ∈ bs, if_boxes_intersect p.box b = true) := by
  induction bs generalizing p with
  | nil => simp
  | cons b bs ih =>
      rw [List.foldl_cons, ih, mem_stepBox, stepBox_box]
      simp only [List.mem_cons]
      constructor
      · rintro ((h | ⟨rfl, hb⟩) | ⟨rfl, b', hb', hint⟩)
        · exact Or.inl h
        · exact Or.inr ⟨rfl, b, Or.inl rfl, hb⟩
        · exact Or.inr ⟨rfl, b', Or.inr hb', hint⟩
      · rintro (h | ⟨rfl, b', (rfl | hb'), hint⟩)
        · exact Or.inl (Or.inl h)
        · exact Or.inl (Or.inr ⟨rfl, hint⟩)
        · exact Or.inr ⟨rfl, b', hb', hint⟩

theorem matchPerson_box (em : List (String × List BoundingBox)) (p : MPerson) :
    (matchPerson em p).box = p.box := by
  induction em generalizing p with
  | nil => rfl
  | cons e em ih =>
      have h : matchPerson (e :: em) p =
          matchPerson em (e.2.foldl (stepBox e.1) p) := rfl
      rw [h, ih, foldl_stepBox_box]

theorem mem_matchPerson (em : List (String × List BoundingBox)) (c : String)
    (p : MPerson) :
    c ∈ (matchPerson em p).equipment ↔
      c ∈ p.equipment ∨
        ∃ bs, (c, bs) ∈ em ∧ ∃ b ∈ bs, if_boxes_intersect p.box b = true := by
  induction em generalizing p with
  | nil => simp [matchPerson]
  | cons e em ih =>
      have h : matchPerson (e :: em) p =
          matchPerson em (e.2.foldl (stepBox e.1) p) := rfl
      rw [h, ih, mem_foldl_stepBox, foldl_stepBox_box]
      simp only [List.mem_cons]
      constructor
      · rintro ((h | ⟨rfl, b, hb, hint⟩) | ⟨bs, hbs, b, hb, hint⟩)
        · exact Or.inl h
        · exact Or.inr ⟨e.2, Or.inl rfl, b, hb, hint⟩
        · exact Or.inr ⟨bs, Or.inr hbs, b, hb, hint⟩
      · rintro (h | ⟨bs, (hbs | hbs), b, hb, hint⟩)
        · exact Or.inl (Or.inl h)
        · refine Or.inl (Or.inr ⟨?_, b, ?_, hint⟩)
          · exact congrArg Prod.fst hbs
          · have hsnd := congrArg Prod.snd hbs
            simp only at hsnd
            rw [hsnd] at hb
            exact hb
        · exact Or.inr ⟨bs, hbs, b, hb, hint⟩

theorem matchGroup_eq_map (g : String) (bs : List BoundingBox)
    (pop : List MPerson) :
    matchGroup pop g bs = pop.map (fun p => bs.foldl (stepBox g) p) := by
  induction bs generalizing pop with
  | nil => simp [matchGroup]
  | cons b bs ih =>
      show matchGroup (matchBox pop g b) g bs = _
      rw [ih, matchBox, List.map_map]
      rfl

theorem runMatcher_eq_map (em : List (String × List BoundingBox))
    (pop : List MPerson) :
    runMatcher em pop = pop.map (matchPerson em) := by
  induction em generalizing pop with
  | nil => exact (List.map_id pop).symm
  | cons e em ih =>
      show runMatcher em (matchGroup pop e.1 e.2) = _
      rw [ih, matchGroup_eq_map, List.map_map]
      rfl

/-- C1: starting from persons with empty equipment sets, the matching pass
keeps the population (same length, same boxes, no removal) and gives every
person exactly the categories whose equipment-box lists contain a box
intersecting that person's box per `if_boxes_intersect`. -/
theorem c1_matcher_equipment_characterisation
    (equipment_boxes : List (String × List BoundingBox))
    (population : List MPerson)
    (hempty : ∀ p ∈ population, p.equipment = []) :
    (runMatcher equipment_boxes population).length = population.length ∧
    ∀ i (hi : i < population.length)
      (hi' : i < (runMatcher equipment_boxes population).length),
      ((runMatcher equipment_boxes population).get ⟨i, hi'⟩).box =
        (population.get ⟨i, hi⟩).box ∧
      ∀ c, c ∈ ((runMatcher equipment_boxes population).get ⟨i, hi'⟩).equipment ↔
        ∃ bs, (c, bs) ∈ equipment_boxes ∧
          ∃ b ∈ bs, if_boxes_intersect (population.get ⟨i, hi⟩).box b = true := by
  have hmap := runMatcher_eq_map equipment_boxes population
  refine ⟨by rw [hmap]; exact List.length_map _ _, ?_⟩
  intro i hi hi'
  have hget : (runMatcher equipment_boxes population).get ⟨i, hi'⟩ =
      matchPerson equipment_boxes (population.get ⟨i, hi⟩) := by
    revert hi'
    rw [hmap]
    intro hi'
    rw [List.get_map]
  rw [hget]
  refine ⟨matchPerson_box _ _, fun c => ?_⟩
  rw [mem_matchPerson, hempty _ (List.get_mem _ _ _)]
  simp

/-- Concrete population and equipment map for the C1 witness (the spec's own
example scenario: two persons, one boot box intersecting only the first). -/
def examplePopulation : List MPerson :=
  [{ box := ⟨⟨0, 1/2⟩, ⟨0, 1/2⟩⟩, equipment := [], ind := none },
   { box := ⟨⟨3/5, 9/10⟩, ⟨3/5, 9/10⟩⟩, equipment := [], ind := none }]

def exampleEquipment : List (String × List BoundingBox) :=
  [("boot", [⟨⟨1/10, 1/5⟩, ⟨1/10, 1/5⟩⟩])]

/-- Witness for C1 at the concrete scenario. -/
theorem c1_matcher_witness :
    (∀ p ∈ examplePopulation, p.equipment = []) ∧
    ((runMatcher exampleEquipment examplePopulation).length =
        examplePopulation.length ∧
      ∀ i (hi : i < examplePopulation.length)
        (hi' : i < (runMatcher exampleEquipment examplePopulation).length),
        ((runMatcher exampleEquipment examplePopulation).get ⟨i, hi'⟩).box =
          (examplePopulation.get ⟨i, hi⟩).box ∧
        ∀ c, c ∈ ((runMatcher exampleEquipment examplePopulation).get
            ⟨i, hi'⟩).equipment ↔
          ∃ bs, (c, bs) ∈ exampleEquipment ∧
            ∃ b ∈ bs,
              if_boxes_intersect (examplePopulation.get ⟨i, hi⟩).box b = true) :=
  ⟨by decide, c1_matcher_equipment_characterisation _ _ (by decide)⟩

/-- Witness for C9 at a concrete zero-width box and `c = 2`. -/
theorem c9_degenerate_box_witness :
    ((⟨⟨0, 0⟩, ⟨0, 1⟩⟩ : BoundingBox).x_interval.min =
      (⟨⟨0, 0⟩, ⟨0, 1⟩⟩ : BoundingBox).x_interval.max) ∧
    (if_boxes_intersect ⟨⟨0, 0⟩, ⟨0, 1⟩⟩ ⟨⟨0, 0⟩, ⟨0, 1⟩⟩ = false ∧
      if_intervals_intersect ⟨2, 2⟩ ⟨2, 2⟩ = false) :=
  ⟨rfl, c9_degenerate_box_never_self_intersects _ 2 (Or.inl rfl)⟩

/-! ### The `Stats` aggregate -/

/-- `Stats`: the processed population.  The derived `equipment2person` dict is
modelled as the derived query below rather than stored: `_add_person` appends
a person under key `k` exactly when `k` is in its equipment set, walking the
population in order, so the per-key list is the population filtered by
membership. -/
structure Stats where
  population : List MPerson
deriving DecidableEq, Repr

/-- `Stats._add_person`: set `person.ind` to the current population length,
then append. -/
def _add_person (population : List MPerson) (person : MPerson) : List MPerson :=
  population ++ [{ person with ind := some population.length }]

/-- `Stats.__init__`: add the persons one by one. -/
def mkStats (population : List MPerson) : Stats :=
  { population := population.foldl _add_person [] }

/-- `Stats.population_size`. -/
def population_size (s : Stats) : Nat :=
  s.population.length

/-- `Stats.unequipped_size`: `sum([1 for entry in population if
len(entry.equipment) == 0])`. -/
def unequipped_size (s : Stats) : Nat :=
  s.population.countP (fun entry => entry.equipment.length == 0)

/-- `Stats.equipped_size`: `population_size() - unequipped_size()`. -/
def equipped_size (s : Stats) : Nat :=
  population_size s - unequipped_size s

/-- `equipment2person[key]` as a query (see the `Stats` doc comment). -/
def equipment2person (s : Stats) (key : String) : List MPerson :=
  s.population.filter (fun p => p.equipment.contains key)

/-- C6: for any `Stats`, equipped + unequipped = population size, the
unequipped count is the number of persons with an empty equipment set, and
the equipped count is the number of persons with a non-empty one. -/
theorem c6_stats_counts (s : Stats) :
    equipped_size s + unequipped_size s = population_size s ∧
    unequipped_size s = s.population.countP (fun p => decide (p.equipment = [])) ∧
    equipped_size s = s.population.countP (fun p => decide (p.equipment ≠ [])) := by
  have hpt : ∀ p : MPerson, (p.equipment.length == 0) = decide (p.equipment = []) := by
    intro p; cases p.equipment <;> simp
  have hu : unequipped_size s =
      s.population.countP (fun p => decide (p.equipment = [])) := by
    unfold unequipped_size
    exact List.countP_congr (fun p _ => by rw [hpt p])
  have hsplit : s.population.countP (fun p => decide (p.equipment = [])) +
      s.population.countP (fun p => decide (p.equipment ≠ [])) =
      s.population.length := by
    induction s.population with
    | nil => rfl
    | cons p ps ih =>
        by_cases h : p.equipment = [] <;>
          simp [List.countP_cons, h, ← ih] <;> omega
  have hle : unequipped_size s ≤ population_size s := by
    unfold unequipped_size population_size
    exact List.countP_le_length _
  refine ⟨?_, hu, ?_⟩
  · unfold equipped_size
    omega
  · unfold equipped_size population_size
    unfold population_size at hle
    omega

/-- Index-assignment helper: the result of folding `_add_person` starting
from a population of length `k`. -/
def assignInds (k : Nat) : List MPerson → List MPerson
  | [] => []
  | p :: ps => { p with ind := some k } :: assignInds (k + 1) ps

theorem foldl_add_person_eq (ps acc : List MPerson) :
    ps.foldl _add_person acc = acc ++ assignInds acc.length ps := by
  induction ps generalizing acc with
  | nil => simp [assignInds]
  | cons p ps ih =>
      rw [List.foldl_cons, ih]
      have h1 : _add_person acc p = acc ++ [{ p with ind := some acc.length }] :=
        rfl
      rw [h1, List.append_assoc, List.length_append]
      rfl

theorem assignInds_length (k : Nat) (ps : List MPerson) :
    (assignInds k ps).length = ps.length := by
  induction ps generalizing k with
  | nil => rfl
  | cons p ps ih => simp [assignInds, ih]

theorem assignInds_get (k : Nat) (ps : List MPerson) (i : Nat)
    (hi : i < ps.length) (hi' : i < (assignInds k ps).length) :
    (assignInds k ps).get ⟨i, hi'⟩ = { ps.get ⟨i, hi⟩ with ind := some (k + i) } := by
  induction ps generalizing k i with
  | nil => exact absurd hi (Nat.not_lt_zero i)
  | cons p ps ih =>
      cases i with
      | zero => simp [assignInds]
      | succ n =>
          have hn : n < ps.length := Nat.lt_of_succ_lt_succ hi
          have hn' : n < (assignInds (k + 1) ps).length := by
            rw [assignInds_length]; exact hn
          show (assignInds (k + 1) ps).get ⟨n, hn'⟩ = _
          rw [ih (k + 1) n hn hn']
          have : k + 1 + n = k + (n + 1) := by omega
          rw [this]
          rfl

/-- C8: `Stats` construction keeps the input order and content of the person
list and assigns every person an `ind` equal to its zero-based position, so
inds are pairwise distinct. -/
theorem c8_stats_positional_inds (population : List MPerson) :
    (mkStats population).population.length = population.length ∧
    (∀ i (hi : i < population.length)
      (hi' : i < (mkStats population).population.length),
      ((mkStats population).population.get ⟨i, hi'⟩).ind = some i ∧
      ((mkStats population).population.get ⟨i, hi'⟩).box =
        (population.get ⟨i, hi⟩).box ∧
      ((mkStats population).population.get ⟨i, hi'⟩).equipment =
        (population.get ⟨i, hi⟩).equipment) ∧
    (∀ i j (hi : i < (mkStats population).population.length)
      (hj : j < (mkStats population).population.length), i ≠ j →
      ((mkStats population).population.get ⟨i, hi⟩).ind ≠
        ((mkStats population).population.get ⟨j, hj⟩).ind) := by
  have hpop : (mkStats population).population = assignInds 0 population := by
    show population.foldl _add_person [] = _
    rw [foldl_add_person_eq]
    rfl
  have hlen : (mkStats population).population.length = population.length := by
    rw [hpop, assignInds_length]
  have hind : ∀ i (hi : i < population.length)
      (hi' : i < (mkStats population).population.length),
      (mkStats population).population.get ⟨i, hi'⟩ =
        { population.get ⟨i, hi⟩ with ind := some i } := by
    intro i hi hi'
    have hi'' : i < (assignInds 0 population).length := by
      rw [assignInds_length]; exact hi
    calc (mkStats population).population.get ⟨i, hi'⟩
        = (assignInds 0 population).get ⟨i, hi''⟩ := by
          revert hi'; rw [hpop]; intro hi'; rfl
      _ = { population.get ⟨i, hi⟩ with ind := some (0 + i) } :=
          assignInds_get 0 population i hi hi''
      _ = { population.get ⟨i, hi⟩ with ind := some i } := by
          rw [Nat.zero_add]
  refine ⟨hlen, ?_, ?_⟩
  · intro i hi hi'
    rw [hind i hi hi']
    exact ⟨rfl, rfl, rfl⟩
  · intro i j hi hj hne
    have hi0 : i < population.length := hlen ▸ hi
    have hj0 : j < population.length := hlen ▸ hj
    rw [hind i hi0 hi, hind j hj0 hj]
    simp only
    intro hcontra
    exact hne (Option.some.injEq i j ▸ hcontra)

/-- Witness for C8 on a two-person population. -/
theorem c8_stats_positional_inds_witness :
    (mkStats examplePopulation).population.length = examplePopulation.length ∧
    ∀ (hi : 0 < examplePopulation.length)
      (hi' : 0 < (mkStats examplePopulation).population.length),
      ((mkStats examplePopulation).population.get ⟨0, hi'⟩).ind = some 0 :=
  ⟨(c8_stats_positional_inds examplePopulation).1,
    fun hi hi' =>
      ((c8_stats_positional_inds examplePopulation).2.1 0 hi hi').1⟩

/-- The per-person line of `Stats.prepare_message`:
`("Person \x7b\x7d wears: " + ", ".join(person.equipment) + ".\n").format(idx)`
when equipped, else `"Person \x7b\x7d is unequipped.\n".format(idx)`.  The
join runs over the Python set's iteration order, carried here by the
`equipment` list; category names contain no placeholder, so `format` only
fills the index. -/
def wearsLine (idx : Nat) (equipment : List String) : String :=
  if equipment.length > 0 then
    "Person " ++ toString idx ++ " wears: " ++
      String.intercalate ", " equipment ++ ".\n"
  else
    "Person " ++ toString idx ++ " is unequipped.\n"

/-- `Stats.prepare_message`: header, unequipped count, one count line per
configured group (in declaration order; `groups` is the key list of
`Config.TARGET_PPE_GROUP_KEYS`, passed explicitly because `lambda_handler`
removes disabled custom groups from it), then one line per person. -/
def prepare_message (groups : List String) (s : Stats) : String :=
  "Report: \nFound " ++ toString (population_size s) ++ " persons.\n" ++
    "Without equipment: " ++ toString (unequipped_size s) ++ ".\n" ++
    String.join (groups.map (fun g =>
      "Persons with " ++ g ++ ": " ++
        toString (equipment2person s g).length ++ ".\n")) ++
    String.join (s.population.enum.map (fun ip => wearsLine ip.1 ip.2.equipment))

/-- C7: `prepare_message` joins a person's equipment names in the set's
iteration order, without sorting: when the set `\x7b"vest", "helmet"\x7d`
iterates as `["vest", "helmet"]`, the rendered line reads `vest, helmet`,
not the alphabetical `helmet, vest` the spec mandates. -/
theorem c7_prepare_message_join_unsorted :
    prepare_message ["helmet"]
        (mkStats [{ box := ⟨⟨0, 1⟩, ⟨0, 1⟩⟩, equipment := ["vest", "helmet"],
                    ind := none }]) =
      "Report: \nFound 1 persons.\nWithout equipment: 0.\n" ++
        "Persons with helmet: 1.\nPerson 0 wears: vest, helmet.\n" ∧
    prepare_message ["helmet"]
        (mkStats [{ box := ⟨⟨0, 1⟩, ⟨0, 1⟩⟩, equipment := ["vest", "helmet"],
                    ind := none }]) ≠
      "Report: \nFound 1 persons.\nWithout equipment: 0.\n" ++
        "Persons with helmet: 1.\nPerson 0 wears: helmet, vest.\n" := by
  exact ⟨by rfl, by decide⟩

/-! ### Detection parsers -/

/-- One entry of a label's `Instances` array: optional `BoundingBox` and
optional `Confidence` keys. -/
structure RawInstance where
  box : Option BoxData
  confidence : Option ℚ
deriving DecidableEq, Repr

/-- One raw label record: `Name`, plus the `Instances` array when the key is
present. -/
structure RawLabel where
  name : String
  instances : Option (List RawInstance)
deriving DecidableEq, Repr

/-- `Config.PERSON_KEYS` of `Lambda_PreTrained_and_CustomLabels.py`. -/
def PERSON_KEYS : List String := ["person", "human", "child"]

/-- `Config.TARGET_PPE_GROUP_KEYS` of `Lambda_PreTrained_and_CustomLabels.py`
in declaration order. -/
def TARGET_PPE_GROUP_KEYS : List (String × List String) :=
  [("helmet", ["helmet", "hardhat"]),
   ("vest", ["vest", "waistcoat", "safetyjacket"]),
   ("mask", ["mask", "masks"]),
   ("boot", ["boot", "shoe"])]

/-- `Config.PERSON_KEYS` of `Lambda_PreTrained.py` (capitalised synonyms). -/
def PT_PERSON_KEYS : List String := ["Person", "Human"]

/-- `Config.TARGET_PPE_GROUP_KEYS` of `Lambda_PreTrained.py` (the vest entry
is commented out in the source). -/
def PT_TARGET_PPE_GROUP_KEYS : List (String × List String) :=
  [("helmet", ["Helmet", "Hardhat"]), ("boot", ["Boot", "Shoe"])]

/-- Python `str.lower()` as applied to label names.  (All configured synonyms
are ASCII; `Char.toLower` agrees with Python there.  `String.toLower` itself
is avoided only because its `mapAux` does not reduce in the kernel.) -/
def str_lower (s : String) : String := ⟨s.data.map Char.toLower⟩

/-- Boxes of the instances carrying a `BoundingBox` key (used by
`parse_general_objects`, which never consults `Confidence`). -/
def boxed_instances (insts : List RawInstance) : List BoundingBox :=
  insts.filterMap (fun entry => entry.box.map make_bounding_box)

/-- Person candidates contributed by one label in `parse_general_objects`:
the name is lowercased and matched against `person_keys`; one `Person()` per
instance with a `BoundingBox` (confidence neither required nor stored). -/
def general_person_contribution (person_keys : List String)
    (label : RawLabel) : List MPerson :=
  match label.instances with
  | none => []
  | some insts =>
      if str_lower label.name ∈ person_keys then
        (boxed_instances insts).map
          (fun b => { box := b, equipment := [], ind := none })
      else []

/-- Boxes contributed by one label to `equipment_boxes[group]` in
`parse_general_objects`: only in the non-person branch, once for every
`group_keys` entry for `group` whose synonym list contains the lowercased
name. -/
def general_equipment_contribution (person_keys : List String)
    (group_keys : List (String × List String)) (group : String)
    (label : RawLabel) : List BoundingBox :=
  match label.instances with
  | none => []
  | some insts =>
      if str_lower label.name ∈ person_keys then []
      else group_keys.flatMap (fun gn =>
        if gn.1 = group ∧ str_lower label.name ∈ gn.2 then boxed_instances insts
        else [])

/-- The `population` list returned by `parse_general_objects`
(`Lambda_PreTrained_and_CustomLabels.py`): appended label by label. -/
def parse_general_objects_population (person_keys : List String)
    (labels : List RawLabel) : List MPerson :=
  labels.flatMap (general_person_contribution person_keys)

/-- The `equipment_boxes[group]` list returned by `parse_general_objects`:
the defaultdict appends per label in order, so the per-key list is the
concatenation of the per-label contributions. -/
def parse_general_objects_equipment (person_keys : List String)
    (group_keys : List (String × List String)) (labels : List RawLabel)
    (group : String) : List BoundingBox :=
  labels.flatMap (general_equipment_contribution person_keys group_keys group)

/-- `Person` of `Lambda_PreTrained.py`, which also stores a confidence. -/
structure PTPerson where
  box : BoundingBox
  confidence : ℚ
  equipment : List String
  ind : Option Nat
deriving DecidableEq, Repr

/-- Person candidates contributed by one label in `parse_objects`
(`Lambda_PreTrained.py`): the name is matched case-sensitively against
`person_keys`; an instance yields a person only when it carries both
`BoundingBox` and `Confidence`. -/
def pt_person_contribution (person_keys : List String)
    (label : RawLabel) : List PTPerson :=
  match label.instances with
  | none => []
  | some insts =>
      if label.name ∈ person_keys then
        insts.filterMap (fun entry =>
          match entry.box, entry.confidence with
          | some box_data, some conf =>
              some { box := make_bounding_box box_data, confidence := conf,
                     equipment := [], ind := none }
          | _, _ => none)
      else []

/-- The `population` list returned by `parse_objects`. -/
def parse_objects_population (person_keys : List String)
    (labels : List RawLabel) : List PTPerson :=
  labels.flatMap (pt_person_contribution person_keys)

/-- C3 counterexample: `parse_general_objects` creates a `Person` from an
instance that has a bounding box but no confidence value, contradicting the
claim that such instances are skipped by every parser. -/
theorem c3_general_parser_ignores_confidence :
    (parse_general_objects_population PERSON_KEYS
      [{ name := "person",
         instances := some [{ box := some ⟨1, 1, 0, 0⟩, confidence := none }] }]
      ).length = 1 := by
  decide

theorem length_filterMap_eq_countP {α β : Type} (f : α → Option β)
    (l : List α) :
    (l.filterMap f).length = l.countP (fun a => (f a).isSome) := by
  induction l with
  | nil => rfl
  | cons a l ih =>
      cases h : f a <;>
        simp [List.filterMap_cons, h, List.countP_cons, ih]

/-- C3 amended: per label, `parse_objects` creates one person for every
instance carrying both a box and a confidence (others are silently skipped),
while `parse_general_objects` creates one person for every instance carrying
a box, without requiring a confidence. -/
theorem c3_person_instance_filtering (name : String)
    (insts : List RawInstance) :
    (parse_objects_population PT_PERSON_KEYS
        [{ name := name, instances := some insts }]).length =
      (if name ∈ PT_PERSON_KEYS then
        insts.countP (fun e => e.box.isSome && e.confidence.isSome) else 0) ∧
    (parse_general_objects_population PERSON_KEYS
        [{ name := name, instances := some insts }]).length =
      (if str_lower name ∈ PERSON_KEYS then
        insts.countP (fun e => e.box.isSome) else 0) := by
  constructor
  · show (pt_person_contribution PT_PERSON_KEYS
        { name := name, instances := some insts } ++ []).length = _
    rw [List.append_nil]
    unfold pt_person_contribution
    simp only
    split
    · rw [length_filterMap_eq_countP]
      refine List.countP_congr (fun e _ => ?_)
      rcases e with ⟨b, c⟩
      cases b <;> cases c <;> simp
    · rfl
  · show (general_person_contribution PERSON_KEYS
        { name := name, instances := some insts } ++ []).length = _
    rw [List.append_nil]
    unfold general_person_contribution
    simp only
    split
    · rw [List.length_map]
      unfold boxed_instances
      rw [length_filterMap_eq_countP]
      refine List.countP_congr (fun e _ => ?_)
      rcases e with ⟨b, c⟩
      cases b <;> simp
    · rfl

/-- Witness for C3 amended at a one-instance person label with both fields. -/
theorem c3_person_instance_filtering_witness :
    (parse_objects_population PT_PERSON_KEYS
        [{ name := "Person",
           instances := some [{ box := some ⟨1, 1, 0, 0⟩,
                                confidence := some 90 }] }]).length =
      (if "Person" ∈ PT_PERSON_KEYS then
        [({ box := some ⟨1, 1, 0, 0⟩,
            confidence := some 90 } : RawInstance)].countP
          (fun e => e.box.isSome && e.confidence.isSome) else 0) :=
  (c3_person_instance_filtering "Person"
    [{ box := some ⟨1, 1, 0, 0⟩, confidence := some 90 }]).1

/-- C5 counterexample: in `parse_objects` (`Lambda_PreTrained.py`) label-name
matching is case-sensitive — lowercasing the name of a valid person label
stops the person candidate from being produced. -/
theorem c5_pretrained_matching_case_sensitive :
    (parse_objects_population PT_PERSON_KEYS
      [{ name := "Person",
         instances := some [{ box := some ⟨1, 1, 0, 0⟩,
                              confidence := some 90 }] }]).length = 1 ∧
    (parse_objects_population PT_PERSON_KEYS
      [{ name := "person",
         instances := some [{ box := some ⟨1, 1, 0, 0⟩,
                              confidence := some 90 }] }]).length = 0 := by
  decide

/-- Lowercase a label's name (the only way `parse_general_objects` reads it). -/
def lowerName (label : RawLabel) : RawLabel :=
  { label with name := str_lower label.name }

/-- C5 amended: `parse_general_objects` matching is case-insensitive — two
label lists that agree after lowercasing every name produce the same person
list and the same box list for every category.  (`parse_objects` is
case-sensitive; see the counterexample.) -/
theorem c5_general_parser_case_insensitive (person_keys : List String)
    (group_keys : List (String × List String)) (labels labels' : List RawLabel)
    (h : labels.map lowerName = labels'.map lowerName) :
    parse_general_objects_population person_keys labels =
      parse_general_objects_population person_keys labels' ∧
    ∀ group,
      parse_general_objects_equipment person_keys group_keys labels group =
        parse_general_objects_equipment person_keys group_keys labels' group := by
  induction labels generalizing labels' with
  | nil =>
      cases labels' with
      | nil => exact ⟨rfl, fun _ => rfl⟩
      | cons b bs => simp at h
  | cons a as ih =>
      cases labels' with
      | nil => simp at h
      | cons b bs =>
          simp only [List.map_cons, List.cons.injEq] at h
          obtain ⟨hab, htl⟩ := h
          have hname : str_lower a.name = str_lower b.name := by
            have := congrArg RawLabel.name hab
            simpa [lowerName] using this
          have hinst : a.instances = b.instances := by
            have := congrArg RawLabel.instances hab
            simpa [lowerName] using this
          obtain ⟨ih1, ih2⟩ := ih bs htl
          constructor
          · unfold parse_general_objects_population at ih1 ⊢
            rw [List.flatMap_cons, List.flatMap_cons, ih1]
            congr 1
            unfold general_person_contribution
            rw [hname, hinst]
          · intro group
            have ih2g := ih2 group
            unfold parse_general_objects_equipment at ih2g ⊢
            rw [List.flatMap_cons, List.flatMap_cons, ih2g]
            congr 1
            unfold general_equipment_contribution
            rw [hname, hinst]

/-- Witness for C5 amended: a mixed-case and a lowercase person label with
the same lowercasing parse identically. -/
theorem c5_general_parser_case_insensitive_witness :
    ([({ name := "PeRsOn",
         instances := some [{ box := some ⟨1, 1, 0, 0⟩,
                              confidence := some 90 }] } : RawLabel)].map
        lowerName =
      [({ name := "person",
          instances := some [{ box := some ⟨1, 1, 0, 0⟩,
                               confidence := some 90 }] } : RawLabel)].map
        lowerName) ∧
    (parse_general_objects_population PERSON_KEYS
        [{ name := "PeRsOn",
           instances := some [{ box := some ⟨1, 1, 0, 0⟩,
                                confidence := some 90 }] }] =
      parse_general_objects_population PERSON_KEYS
        [{ name := "person",
           instances := some [{ box := some ⟨1, 1, 0, 0⟩,
                                confidence := some 90 }] }] ∧
    ∀ group,
      parse_general_objects_equipment PERSON_KEYS TARGET_PPE_GROUP_KEYS
          [{ name := "PeRsOn",
             instances := some [{ box := some ⟨1, 1, 0, 0⟩,
                                  confidence := some 90 }] }] group =
        parse_general_objects_equipment PERSON_KEYS TARGET_PPE_GROUP_KEYS
          [{ name := "person",
             instances := some [{ box := some ⟨1, 1, 0, 0⟩,
                                  confidence := some 90 }] }] group) :=
  ⟨by decide, c5_general_parser_case_insensitive PERSON_KEYS
    TARGET_PPE_GROUP_KEYS _ _ (by decide)⟩

/-! ### `lambda_function.py`: single-category greedy person/vest matching -/

/-- The `BoundingBoxCoordinates` dict built by `getBoundingBoxCoordinates`:
the four rectangle corners.  (`matchPersonsAndVests` reads only `x1`, `x2`,
`y1` and `y4` of each record.) -/
structure BoundingBoxCoordinates where
  x1 : ℚ
  y1 : ℚ
  x2 : ℚ
  y2 : ℚ
  x3 : ℚ
  y3 : ℚ
  x4 : ℚ
  y4 : ℚ
deriving DecidableEq, Repr

/-- The overlap test of `matchPersonsAndVests`: `not (vest.x2 < person.x1 or
vest.x1 > person.x2 or vest.y4 < person.y1 or vest.y1 > person.y4)` —
non-strict, so boxes touching at an edge overlap. -/
def vestOverlapsPerson (vest person : BoundingBoxCoordinates) : Bool :=
  !(decide (vest.x2 < person.x1) || decide (vest.x1 > person.x2) ||
    decide (vest.y4 < person.y1) || decide (vest.y1 > person.y4))

/-- The inner `while p < totalPersons` loop: scan `persons` in order for the
first one overlapping `vest`; on a hit return it together with the list after
`del persons[p]`, else `none`. -/
def extractFirstMatch (vest : BoundingBoxCoordinates) :
    List BoundingBoxCoordinates →
      Option (BoundingBoxCoordinates × List BoundingBoxCoordinates)
  | [] => none
  | p :: ps =>
      if vestOverlapsPerson vest p then some (p, ps)
      else
        match extractFirstMatch vest ps with
        | none => none
        | some (q, qs) => some (q, p :: qs)

/-- `matchPersonsAndVests`: the outer `while h < totalvests` loop visits each
input vest exactly once in order (after `matched` deletions the next
unprocessed vest sits at index `h - matched`); a matched person/vest pair is
appended to `personsWithvests` and both are deleted from further matching.
Returns `(personsWithvests, persons, vests)` — matched pairs, leftover
persons, leftover vests. -/
def matchPersonsAndVests
    (personsList vestsList : List BoundingBoxCoordinates) :
    List (BoundingBoxCoordinates × BoundingBoxCoordinates) ×
      List BoundingBoxCoordinates × List BoundingBoxCoordinates :=
  match vestsList with
  | [] => ([], personsList, [])
  | vest :: rest =>
      match extractFirstMatch vest personsList with
      | some (person, remaining) =>
          ((person, vest) :: (matchPersonsAndVests remaining rest).1,
            (matchPersonsAndVests remaining rest).2)
      | none =>
          ((matchPersonsAndVests personsList rest).1,
            (matchPersonsAndVests personsList rest).2.1,
            vest :: (matchPersonsAndVests personsList rest).2.2)

theorem extractFirstMatch_spec (vest : BoundingBoxCoordinates) :
    ∀ (ps : List BoundingBoxCoordinates) (q : BoundingBoxCoordinates)
      (qs : List BoundingBoxCoordinates),
      extractFirstMatch vest ps = some (q, qs) →
      List.Perm (q :: qs) ps ∧ vestOverlapsPerson vest q = true
  | [], q, qs, h => by simp [extractFirstMatch] at h
  | p :: ps, q, qs, h => by
      rw [extractFirstMatch] at h
      by_cases hov : vestOverlapsPerson vest p = true
      · rw [if_pos hov, Option.some.injEq, Prod.mk.injEq] at h
        obtain ⟨h1, h2⟩ := h
        subst h1; subst h2
        exact ⟨List.Perm.refl _, hov⟩
      · rw [if_neg hov] at h
        cases hrec : extractFirstMatch vest ps with
        | none => rw [hrec] at h; cases h
        | some r =>
            obtain ⟨a, as⟩ := r
            rw [hrec, Option.some.injEq, Prod.mk.injEq] at h
            obtain ⟨h1, h2⟩ := h
            subst h1; subst h2
            obtain ⟨hperm, hovq⟩ := extractFirstMatch_spec vest ps a as hrec
            exact ⟨List.Perm.trans (List.Perm.swap p a as) (hperm.cons p), hovq⟩

theorem matchPV_perm_persons :
    ∀ (vests persons : List BoundingBoxCoordinates),
      List.Perm ((matchPersonsAndVests persons vests).1.map Prod.fst ++
        (matchPersonsAndVests persons vests).2.1) persons
  | [], persons => by simp [matchPersonsAndVests]
  | v :: rest, persons => by
      rw [matchPersonsAndVests]
      cases hx : extractFirstMatch v persons with
      | none =>
          simp only
          exact matchPV_perm_persons rest persons
      | some r =>
          obtain ⟨q, qs⟩ := r
          simp only [List.map_cons, List.cons_append]
          exact List.Perm.trans ((matchPV_perm_persons rest qs).cons q)
            (extractFirstMatch_spec v persons q qs hx).1

theorem matchPV_perm_vests :
    ∀ (vests persons : List BoundingBoxCoordinates),
      List.Perm ((matchPersonsAndVests persons vests).1.map Prod.snd ++
        (matchPersonsAndVests persons vests).2.2) vests
  | [], persons => by simp [matchPersonsAndVests]
  | v :: rest, persons => by
      rw [matchPersonsAndVests]
      cases hx : extractFirstMatch v persons with
      | none =>
          simp only
          exact List.Perm.trans List.perm_middle
            ((matchPV_perm_vests rest persons).cons v)
      | some r =>
          obtain ⟨q, qs⟩ := r
          simp only [List.map_cons, List.cons_append]
          exact ((matchPV_perm_vests rest qs).cons v)

theorem matchPV_pairs_overlap :
    ∀ (vests persons : List BoundingBoxCoordinates),
      ∀ pr ∈ (matchPersonsAndVests persons vests).1,
        vestOverlapsPerson pr.2 pr.1 = true
  | [], persons => by simp [matchPersonsAndVests]
  | v :: rest, persons => by
      rw [matchPersonsAndVests]
      cases hx : extractFirstMatch v persons with
      | none =>
          simp only
          exact matchPV_pairs_overlap rest persons
      | some r =>
          obtain ⟨q, qs⟩ := r
          simp only
          intro pr hpr
          rcases List.mem_cons.mp hpr with hpr | hpr
          · subst hpr
            exact (extractFirstMatch_spec v persons q qs hx).2
          · exact matchPV_pairs_overlap rest qs pr hpr

/-- C10: the greedy person/vest matcher is one-to-one: every input person is
accounted for exactly once among the matched pairs and the leftover persons
(as a permutation), likewise every vest; hence pairs + leftovers add up to
the input counts; every matched pair actually overlaps; and the overlap test
is non-strict (edge-touching boxes overlap). -/
theorem c10_match_persons_and_vests_one_to_one
    (personsList vestsList : List BoundingBoxCoordinates) :
    List.Perm ((matchPersonsAndVests personsList vestsList).1.map Prod.fst ++
      (matchPersonsAndVests personsList vestsList).2.1) personsList ∧
    List.Perm ((matchPersonsAndVests personsList vestsList).1.map Prod.snd ++
      (matchPersonsAndVests personsList vestsList).2.2) vestsList ∧
    (matchPersonsAndVests personsList vestsList).1.length +
      (matchPersonsAndVests personsList vestsList).2.1.length =
      personsList.length ∧
    (matchPersonsAndVests personsList vestsList).1.length +
      (matchPersonsAndVests personsList vestsList).2.2.length =
      vestsList.length ∧
    (∀ pr ∈ (matchPersonsAndVests personsList vestsList).1,
      vestOverlapsPerson pr.2 pr.1 = true) ∧
    (∀ vest person : BoundingBoxCoordinates,
      vestOverlapsPerson vest person = true ↔
        (person.x1 ≤ vest.x2 ∧ vest.x1 ≤ person.x2 ∧
          person.y1 ≤ vest.y4 ∧ vest.y1 ≤ person.y4)) := by
  have hp := matchPV_perm_persons vestsList personsList
  have hv := matchPV_perm_vests vestsList personsList
  have hlp := hp.length_eq
  have hlv := hv.length_eq
  rw [List.length_append, List.length_map] at hlp hlv
  refine ⟨hp, hv, hlp, hlv, matchPV_pairs_overlap vestsList personsList, ?_⟩
  intro vest person
  unfold vestOverlapsPerson
  simp [not_lt]
  tauto

end PPE
